import Mathlib

/-!
Verification development for the market-grouping and probability-consistency
analysis engine (source: analyze_multivariate_markets.py).

Modelling choices:
- An observation row carries the three columns the analysis queries read
  (ticker, yes_price, timestamp); the remaining table columns are never read
  by the analysed functions and are omitted.
- Timestamps are ISO-8601 text in the database and are only ever compared,
  maximised, and sorted; lexicographic order on such text agrees with
  chronological order, so timestamps are modelled as naturals.
- Prices are modelled as rationals; the SQL result set ordered by
  timestamp DESC is modelled as a stable descending sort on the stored rows.
- numpy's std is the square root of the population variance; the square
  root lands in the reals, so the detector's scoring stage lives in the
  reals while everything before it stays rational and computable.
-/

/-- A stored observation row, restricted to the columns the analysis reads. -/
structure Obs where
  ticker : String
  yes_price : ℚ
  timestamp : ℕ
deriving DecidableEq

/-- Splits a character list at the LAST occurrence of the dash, returning
the parts before and after it; none when no dash occurs.  This models
Python's rsplit with maxsplit 1. -/
def lastSplit : List Char → Option (List Char × List Char)
  | [] => none
  | c :: rest =>
    match lastSplit rest with
    | some (pre, suf) => some (c :: pre, suf)
    | none => if c = '-' then some ([], rest) else none

/-- The group key of a ticker: everything before the last dash, or the
ticker itself when it has no dash (rsplit followed by the length test in
group_related_markets). -/
def base_ticker (t : String) : String :=
  match lastSplit t.toList with
  | some (pre, _) => pre.asString
  | none => t

/-- Append tk to the group keyed by key, creating the group at the end when
the key is new.  This models appending to a defaultdict(list) entry with
Python dict insertion order. -/
def insertGroup : List (String × List String) → String → String → List (String × List String)
  | [], key, tk => [(key, [tk])]
  | (k, ms) :: rest, key, tk =>
    if k = key then (k, ms ++ [tk]) :: rest else (k, ms) :: insertGroup rest key tk

/-- group_related_markets: partition a ticker list into groups keyed by the
part before the last dash. -/
def group_related_markets (ids : List String) : List (String × List String) :=
  ids.foldl (fun gs tk => insertGroup gs (base_ticker tk) tk) []

/-- Round a rational to the nearest integer, halves to even (Python round). -/
def roundHalfEven (x : ℚ) : ℤ :=
  let f := ⌊x⌋
  let r := x - f
  if r < 1/2 then f
  else if 1/2 < r then f + 1
  else if f % 2 = 0 then f else f + 1

/-- round(x, n) on rationals: n decimal digits, halves to even. -/
def roundToQ (n : ℕ) (x : ℚ) : ℚ := (roundHalfEven (x * 10 ^ n) : ℚ) / 10 ^ n

open Classical in
/-- Round a real to the nearest integer, halves to even (Python round). -/
noncomputable def roundHalfEvenR (x : ℝ) : ℤ :=
  let f := ⌊x⌋
  let r := x - f
  if r < 1/2 then f
  else if 1/2 < r then f + 1
  else if f % 2 = 0 then f else f + 1

/-- round(x, n) on reals: n decimal digits, halves to even. -/
noncomputable def roundToR (n : ℕ) (x : ℝ) : ℝ := (roundHalfEvenR (x * 10 ^ n) : ℝ) / 10 ^ n

/-- The rows returned by WHERE ticker IN (event_tickers), in table order. -/
def queryGroup (store : List Obs) (event_tickers : List String) : List Obs :=
  store.filter (fun o => decide (o.ticker ∈ event_tickers))

/-- Insert an observation into a timestamp-descending list, before the first
row whose timestamp is not larger (stable placement). -/
def insertDesc (o : Obs) : List Obs → List Obs
  | [] => [o]
  | x :: xs => if o.timestamp < x.timestamp then x :: insertDesc o xs else o :: x :: xs

/-- ORDER BY timestamp DESC, modelled as a stable descending insertion sort. -/
def sortByTsDesc (l : List Obs) : List Obs := l.foldr insertDesc []

/-- The largest timestamp among the rows (pandas max / nlargest row). -/
def maxTs (l : List Obs) : ℕ := (l.map (fun o => o.timestamp)).foldr max 0

/-- The evaluator's query result: all rows for the group, newest first. -/
def calcDf (store : List Obs) (event_tickers : List String) : List Obs :=
  sortByTsDesc (queryGroup store event_tickers)

/-- The evaluator's rows at the latest timestamp. -/
def calcRows (store : List Obs) (event_tickers : List String) : List Obs :=
  (calcDf store event_tickers).filter
    (fun o => decide (o.timestamp = maxTs (calcDf store event_tickers)))

/-- The unrounded aggregate yes-price sum at the latest timestamp. -/
def calcTotal (store : List Obs) (event_tickers : List String) : ℚ :=
  ((calcRows store event_tickers).map (fun o => o.yes_price)).sum

/-- The record returned by calculate_implied_probability_sum. -/
structure ConsistencyResult where
  event_tickers : List String
  timestamp : ℕ
  total_probability_sum : ℚ
  implied_efficiency : String
  market_prices : List (String × ℚ)
deriving DecidableEq

/-- calculate_implied_probability_sum with the reporting rounding abstracted
as rho; the function itself applies round-to-3-decimals there. -/
def calcWith (rho : ℚ → ℚ) (store : List Obs) (event_tickers : List String) :
    Option ConsistencyResult :=
  if calcDf store event_tickers = [] then none
  else some {
    event_tickers := event_tickers
    timestamp := maxTs (calcDf store event_tickers)
    total_probability_sum := rho (calcTotal store event_tickers)
    implied_efficiency :=
      if 0.95 < calcTotal store event_tickers ∧ calcTotal store event_tickers < 1.05 then "Fair"
      else if 1.05 < calcTotal store event_tickers then "Expensive"
      else "Cheap"
    market_prices := (calcRows store event_tickers).map (fun o => (o.ticker, o.yes_price)) }

/-- calculate_implied_probability_sum: query the group's rows, keep the rows
at the latest timestamp, sum their yes-prices, classify, and report the sum
rounded to 3 decimals. -/
def calculate_implied_probability_sum (store : List Obs) (event_tickers : List String) :
    Option ConsistencyResult :=
  calcWith (roundToQ 3) store event_tickers

/-- The detector's query result: LIMIT len(event_tickers) newest rows. -/
def detectDf (store : List Obs) (event_tickers : List String) : List Obs :=
  (sortByTsDesc (queryGroup store event_tickers)).take event_tickers.length

/-- The detector's rows at the latest timestamp of its (truncated) result. -/
def detectRows (store : List Obs) (event_tickers : List String) : List Obs :=
  (detectDf store event_tickers).filter
    (fun o => decide (o.timestamp = maxTs (detectDf store event_tickers)))

/-- The yes-prices at the detector's latest timestamp. -/
def detectPrices (store : List Obs) (event_tickers : List String) : List ℚ :=
  (detectRows store event_tickers).map (fun o => o.yes_price)

/-- np.mean of a price list. -/
def meanPrice (l : List ℚ) : ℚ := l.sum / l.length

/-- Population variance of a price list (the square of np.std). -/
def varPrice (l : List ℚ) : ℚ := (l.map (fun p => (p - meanPrice l) ^ 2)).sum / l.length

/-- np.std: square root of the population variance. -/
noncomputable def stdPrice (l : List ℚ) : ℝ := Real.sqrt ((varPrice l : ℚ) : ℝ)

/-- The standardized score (price - mean) / (std + 0.001). -/
noncomputable def zscore (l : List ℚ) (p : ℚ) : ℝ :=
  (((p : ℚ) : ℝ) - ((meanPrice l : ℚ) : ℝ)) / (stdPrice l + 1/1000)

/-- The flagging condition of the detector: absolute score above 1.5. -/
def flagged (l : List ℚ) (p : ℚ) : Prop := 3/2 < |zscore l p|

/-- An entry of the detector's anomaly list. -/
structure AnomalyRecord where
  ticker : String
  price : ℚ
  z_score : ℝ
  anomaly_type : String

/-- The record returned by detect_probability_anomalies. -/
structure AnomalyResult where
  event_tickers : List String
  mean_price : ℚ
  std_dev : ℝ
  anomalies_detected : Bool
  anomalies : List AnomalyRecord

lemma varPrice_nonneg (l : List ℚ) : 0 ≤ varPrice l := by
  unfold varPrice
  apply div_nonneg
  · apply List.sum_nonneg
    intro x hx
    obtain ⟨p, -, rfl⟩ := List.mem_map.mp hx
    positivity
  · positivity

lemma stdPrice_nonneg (l : List ℚ) : 0 ≤ stdPrice l := Real.sqrt_nonneg _

lemma denom_pos (l : List ℚ) : 0 < stdPrice l + 1/1000 := by
  have h := stdPrice_nonneg l
  linarith

/-- The absolute score is the absolute price deviation over the positive
denominator. -/
lemma abs_zscore (l : List ℚ) (p : ℚ) :
    |zscore l p| = |((p : ℚ) : ℝ) - ((meanPrice l : ℚ) : ℝ)| / (stdPrice l + 1/1000) := by
  unfold zscore
  rw [abs_div, abs_of_pos (denom_pos l)]

/-- The flagging condition is equivalent to a rational inequality pair,
obtained by clearing the positive denominator and squaring away the root. -/
lemma flagged_iff (l : List ℚ) (p : ℚ) :
    flagged l p ↔
      (0 < |p - meanPrice l| - 3/2000 ∧
        9/4 * varPrice l < (|p - meanPrice l| - 3/2000) ^ 2) := by
  have hs : 0 ≤ stdPrice l := stdPrice_nonneg l
  have hv : (0 : ℝ) ≤ ((varPrice l : ℚ) : ℝ) := by
    exact_mod_cast varPrice_nonneg l
  have hcastA : ((|p - meanPrice l| - 3/2000 : ℚ) : ℝ)
      = |((p : ℚ) : ℝ) - ((meanPrice l : ℚ) : ℝ)| - 3/2000 := by
    push_cast
    ring
  unfold flagged
  rw [abs_zscore, lt_div_iff₀ (denom_pos l)]
  constructor
  · intro h
    have hA : (0 : ℝ) < ((|p - meanPrice l| - 3/2000 : ℚ) : ℝ) := by
      rw [hcastA]
      nlinarith [mul_nonneg (by norm_num : (0:ℝ) ≤ 3/2) hs]
    have hA' : (0 : ℚ) < |p - meanPrice l| - 3/2000 := by exact_mod_cast hA
    have hsq : Real.sqrt ((varPrice l : ℚ) : ℝ)
        < 2/3 * ((|p - meanPrice l| - 3/2000 : ℚ) : ℝ) := by
      have h23 : (0 : ℝ) < 2/3 * ((|p - meanPrice l| - 3/2000 : ℚ) : ℝ) := by linarith
      rw [Real.sqrt_lt' h23]
      rw [hcastA] at *
      unfold stdPrice at h
      nlinarith [Real.sq_sqrt hv, Real.sqrt_nonneg ((varPrice l : ℚ) : ℝ)]
    have : ((9/4 * varPrice l : ℚ) : ℝ) < (((|p - meanPrice l| - 3/2000 : ℚ) : ℝ)) ^ 2 := by
      have hsqrt := Real.sq_sqrt hv
      unfold stdPrice at hsq
      push_cast
      push_cast at hsqrt hsq hA
      nlinarith [Real.sqrt_nonneg ((varPrice l : ℚ) : ℝ)]
    refine ⟨hA', ?_⟩
    exact_mod_cast this
  · rintro ⟨h1, h2⟩
    have h1' : (0 : ℝ) < ((|p - meanPrice l| - 3/2000 : ℚ) : ℝ) := by exact_mod_cast h1
    have h2' : ((9/4 * varPrice l : ℚ) : ℝ)
        < (((|p - meanPrice l| - 3/2000 : ℚ) : ℝ)) ^ 2 := by exact_mod_cast h2
    have hsq : Real.sqrt ((varPrice l : ℚ) : ℝ)
        < 2/3 * ((|p - meanPrice l| - 3/2000 : ℚ) : ℝ) := by
      have h23 : (0 : ℝ) < 2/3 * ((|p - meanPrice l| - 3/2000 : ℚ) : ℝ) := by linarith
      rw [Real.sqrt_lt' h23]
      push_cast
      push_cast at h2'
      nlinarith
    unfold stdPrice
    rw [hcastA] at h1' hsq
    nlinarith

instance (l : List ℚ) (p : ℚ) : Decidable (flagged l p) :=
  decidable_of_iff _ (flagged_iff l p).symm

/-- The score is positive exactly when the price is above the mean. -/
lemma zscore_pos_iff (l : List ℚ) (p : ℚ) : 0 < zscore l p ↔ meanPrice l < p := by
  unfold zscore
  rw [lt_div_iff₀ (denom_pos l), zero_mul, sub_pos]
  exact Rat.cast_lt

instance (l : List ℚ) (p : ℚ) : Decidable (0 < zscore l p) :=
  decidable_of_iff _ (zscore_pos_iff l p).symm

/-- The detector's anomaly list, with the reporting rounding of the stored
score abstracted as rhoZ; flagging and direction use the unrounded score. -/
noncomputable def anomalyList (rhoZ : ℝ → ℝ) (store : List Obs) (event_tickers : List String) :
    List AnomalyRecord :=
  (detectRows store event_tickers).filterMap (fun o =>
    if flagged (detectPrices store event_tickers) o.yes_price then
      some { ticker := o.ticker
             price := o.yes_price
             z_score := rhoZ (zscore (detectPrices store event_tickers) o.yes_price)
             anomaly_type :=
               if 0 < zscore (detectPrices store event_tickers) o.yes_price then "UNUSUALLY_HIGH"
               else "UNUSUALLY_LOW" }
    else none)

/-- detect_probability_anomalies with the three reporting roundings
abstracted; the function itself rounds mean and std to 3 decimals and the
stored score to 2. -/
noncomputable def detectWith (rhoM : ℚ → ℚ) (rhoS rhoZ : ℝ → ℝ)
    (store : List Obs) (event_tickers : List String) : Option AnomalyResult :=
  if (detectDf store event_tickers).length < 3 then none
  else some {
    event_tickers := event_tickers
    mean_price := rhoM (meanPrice (detectPrices store event_tickers))
    std_dev := rhoS (stdPrice (detectPrices store event_tickers))
    anomalies_detected := decide (0 < (anomalyList rhoZ store event_tickers).length)
    anomalies := anomalyList rhoZ store event_tickers }

/-- detect_probability_anomalies: query at most len(event_tickers) newest
rows for the group, require at least 3 of them, score the rows at the
latest timestamp and flag scores with magnitude above 1.5.  The threshold
parameter (source default 0.15) is accepted but never read by the body. -/
noncomputable def detect_probability_anomalies (store : List Obs) (event_tickers : List String)
    (threshold : ℚ) : Option AnomalyResult :=
  detectWith (roundToQ 3) (roundToR 3) (roundToR 2) store event_tickers

lemma insertDesc_perm (o : Obs) (l : List Obs) : List.Perm (insertDesc o l) (o :: l) := by
  induction l with
  | nil => exact .refl _
  | cons x xs ih =>
    unfold insertDesc
    by_cases h : o.timestamp < x.timestamp
    · rw [if_pos h]
      exact (List.Perm.cons x ih).trans (List.Perm.swap o x xs)
    · rw [if_neg h]

lemma sortByTsDesc_perm (l : List Obs) : List.Perm (sortByTsDesc l) l := by
  induction l with
  | nil => exact .refl _
  | cons x xs ih =>
    show List.Perm (insertDesc x (sortByTsDesc xs)) (x :: xs)
    exact (insertDesc_perm x (sortByTsDesc xs)).trans (List.Perm.cons x ih)

lemma sort_eq_nil_iff (l : List Obs) : sortByTsDesc l = [] ↔ l = [] := by
  have h := (sortByTsDesc_perm l).length_eq
  constructor
  · intro hh
    rw [hh] at h
    exact List.length_eq_zero.mp h.symm
  · intro hh
    subst hh
    rfl

lemma maxTs_cons (o : Obs) (l : List Obs) : maxTs (o :: l) = max o.timestamp (maxTs l) := rfl

lemma maxTs_le (l : List Obs) : ∀ o ∈ l, o.timestamp ≤ maxTs l := by
  induction l with
  | nil => intro o ho; cases ho
  | cons x xs ih =>
    intro o ho
    rw [maxTs_cons]
    rcases List.mem_cons.mp ho with rfl | h
    · exact le_max_left _ _
    · exact le_trans (ih o h) (le_max_right _ _)

lemma maxTs_mem (l : List Obs) (h : l ≠ []) : maxTs l ∈ l.map (fun o => o.timestamp) := by
  induction l with
  | nil => exact absurd rfl h
  | cons x xs ih =>
    rw [maxTs_cons]
    rcases eq_or_ne xs [] with rfl | hxs
    · simp [maxTs]
    · rcases max_choice x.timestamp (maxTs xs) with hm | hm <;> rw [hm]
      · simp
      · simp only [List.map_cons, List.mem_cons]
        exact Or.inr (ih hxs)

lemma queryGroup_eq_nil_iff (store : List Obs) (g : List String) :
    queryGroup store g = [] ↔ ∀ o ∈ store, o.ticker ∉ g := by
  unfold queryGroup
  rw [List.filter_eq_nil_iff]
  simp

lemma calcWith_none_iff (rho : ℚ → ℚ) (store : List Obs) (g : List String) :
    calcWith rho store g = none ↔ queryGroup store g = [] := by
  unfold calcWith
  rcases eq_or_ne (queryGroup store g) [] with hq | hq
  · have hdf : calcDf store g = [] := by
      unfold calcDf
      rw [hq]
      rfl
    rw [if_pos hdf]
    simp [hq]
  · have hdf : calcDf store g ≠ [] := fun hh => hq ((sort_eq_nil_iff _).mp hh)
    rw [if_neg hdf]
    simp [hq]

/-- Claim C6: the evaluator returns absent exactly when the store holds no
observation for any member of the group, and returns a result as soon as one
member has one observation. -/
theorem claim6_thm (store : List Obs) (g : List String) :
    calculate_implied_probability_sum store g = none ↔ ∀ o ∈ store, o.ticker ∉ g :=
  (calcWith_none_iff (roundToQ 3) store g).trans (queryGroup_eq_nil_iff store g)

/-- Claim C10: the detector's result is independent of the threshold
argument; the flagging cutoff is the fixed constant 1.5. -/
theorem claim10_thm (store : List Obs) (g : List String) (t1 t2 : ℚ) :
    detect_probability_anomalies store g t1 = detect_probability_anomalies store g t2 := rfl

/-- A store whose as-of yes-prices sum to exactly 1.05. -/
def store105 : List Obs := [⟨"A", 1/2, 1⟩, ⟨"B", 11/20, 1⟩]

/-- The two-member group for store105. -/
def g105 : List String := ["A", "B"]

/-- Claim C1, counterexample: with an unrounded aggregate sum of exactly
1.05 the code classifies the group "Cheap", not "Expensive". -/
theorem claim1_counterexample :
    calcTotal store105 g105 = 1.05 ∧
    (calculate_implied_probability_sum store105 g105).map (fun r => r.implied_efficiency)
      = some "Cheap" := by
  have h1 : calcTotal store105 g105 = 1.05 := by
    norm_num [calcTotal, calcRows, calcDf, queryGroup, sortByTsDesc, insertDesc, maxTs,
      store105, g105]
  refine ⟨h1, ?_⟩
  unfold calculate_implied_probability_sum calcWith
  rw [if_neg (by decide : ¬ calcDf store105 g105 = []), h1]
  rw [if_neg (by norm_num : ¬ ((0.95 : ℚ) < 1.05 ∧ (1.05 : ℚ) < 1.05)),
    if_neg (by norm_num : ¬ (1.05 : ℚ) < 1.05)]
  rfl

/-- Claim C1, amended: the classification of a produced result is a function
of the unrounded aggregate sum, with "Fair" on the open interval
(0.95, 1.05), "Expensive" strictly above 1.05, and "Cheap" at or below 0.95
and also at exactly 1.05. -/
theorem claim1_amended (store : List Obs) (g : List String) (r : ConsistencyResult)
    (h : calculate_implied_probability_sum store g = some r) :
    (r.implied_efficiency = "Fair" ↔
        (0.95 < calcTotal store g ∧ calcTotal store g < 1.05)) ∧
    (r.implied_efficiency = "Expensive" ↔ 1.05 < calcTotal store g) ∧
    (r.implied_efficiency = "Cheap" ↔
        (calcTotal store g ≤ 0.95 ∨ calcTotal store g = 1.05)) := by
  unfold calculate_implied_probability_sum calcWith at h
  split at h
  · exact absurd h (by simp)
  · rw [Option.some.injEq] at h
    subst h
    dsimp only
    by_cases h1 : 0.95 < calcTotal store g ∧ calcTotal store g < 1.05
    · rw [if_pos h1]
      refine ⟨by simp [h1], ?_, ?_⟩
      · have : ¬ (1.05 : ℚ) < calcTotal store g := by
          have := h1.2
          intro hc
          linarith
        simp [this, show ("Fair" : String) ≠ "Expensive" from by decide]
      · have h2 : ¬ (calcTotal store g ≤ 0.95 ∨ calcTotal store g = 1.05) := by
          push_neg
          constructor
          · linarith [h1.1]
          · intro hc
            rw [hc] at h1
            exact absurd h1.2 (by norm_num)
        simp [h2, show ("Fair" : String) ≠ "Cheap" from by decide]
    · rw [if_neg h1]
      by_cases h2 : 1.05 < calcTotal store g
      · rw [if_pos h2]
        refine ⟨?_, by simp [h2], ?_⟩
        · simp [h1, show ("Expensive" : String) ≠ "Fair" from by decide]
        · have h3 : ¬ (calcTotal store g ≤ 0.95 ∨ calcTotal store g = 1.05) := by
            push_neg
            constructor
            · linarith
            · intro hc
              rw [hc] at h2
              exact absurd h2 (by norm_num)
          simp [h3, show ("Expensive" : String) ≠ "Cheap" from by decide]
      · rw [if_neg h2]
        have h3 : calcTotal store g ≤ 0.95 ∨ calcTotal store g = 1.05 := by
          rcases le_or_lt (calcTotal store g) 0.95 with h4 | h4
          · exact Or.inl h4
          · right
            have h5 : ¬ calcTotal store g < 1.05 := fun hc => h1 ⟨h4, hc⟩
            exact le_antisymm (not_lt.mp h2) (not_lt.mp h5)
        refine ⟨?_, ?_, by simp [h3]⟩
        · simp [h1, show ("Cheap" : String) ≠ "Fair" from by decide]
        · simp [h2, show ("Cheap" : String) ≠ "Expensive" from by decide]

/-- The record calculate_implied_probability_sum produces on store105. -/
def res105 : ConsistencyResult :=
  { event_tickers := g105
    timestamp := 1
    total_probability_sum := 21/20
    implied_efficiency := "Cheap"
    market_prices := [("A", 1/2), ("B", 11/20)] }

/-- Witness for claim C1 at the concrete store whose aggregate is 1.05. -/
lemma calcTotal_store105 : calcTotal store105 g105 = 21/20 := by
  norm_num [calcTotal, calcRows, calcDf, queryGroup, sortByTsDesc, insertDesc, maxTs,
    store105, g105]

lemma calc_store105_eq : calculate_implied_probability_sum store105 g105 = some res105 := by
  unfold calculate_implied_probability_sum calcWith
  rw [if_neg (by decide : ¬ calcDf store105 g105 = []), Option.some.injEq]
  unfold res105
  rw [ConsistencyResult.mk.injEq]
  refine ⟨rfl, rfl, ?_, ?_, rfl⟩
  · rw [calcTotal_store105]
    unfold roundToQ roundHalfEven
    rw [show ((21/20 : ℚ) * 10 ^ 3) = ((1050 : ℤ) : ℚ) by norm_num, Int.floor_intCast]
    norm_num
  · rw [calcTotal_store105]
    rw [if_neg (by norm_num : ¬ ((0.95 : ℚ) < 21/20 ∧ (21/20 : ℚ) < 1.05)),
      if_neg (by norm_num : ¬ (1.05 : ℚ) < 21/20)]

/-- Witness for claim C1 at the concrete store whose aggregate is 1.05. -/
theorem claim1_witness :
    res105.implied_efficiency = "Cheap" ↔
      (calcTotal store105 g105 ≤ 0.95 ∨ calcTotal store105 g105 = 1.05) :=
  (claim1_amended store105 g105 res105 calc_store105_eq).2.2

lemma anomalyList_proj (r1 r2 : ℝ → ℝ) (store : List Obs) (g : List String) :
    (anomalyList r1 store g).map (fun a => (a.ticker, a.price, a.anomaly_type))
      = (anomalyList r2 store g).map (fun a => (a.ticker, a.price, a.anomaly_type)) := by
  unfold anomalyList
  rw [List.map_filterMap, List.map_filterMap]
  congr 1
  funext o
  by_cases h : flagged (detectPrices store g) o.yes_price
  · rw [if_pos h, if_pos h]
    rfl
  · rw [if_neg h, if_neg h]

lemma anomalyList_length (r1 r2 : ℝ → ℝ) (store : List Obs) (g : List String) :
    (anomalyList r1 store g).length = (anomalyList r2 store g).length := by
  have h := congrArg List.length (anomalyList_proj r1 r2 store g)
  simpa using h

/-- Claim C7: the 3-decimal (and 2-decimal) roundings are presentation-only:
replacing every reporting rounding by arbitrary functions leaves the
classification label, the anomaly flag set (tickers, prices, directions) and
the anomalies-present boolean unchanged. -/
theorem claim7_thm (rho1 rhoM : ℚ → ℚ) (rhoS rhoZ : ℝ → ℝ)
    (store : List Obs) (g : List String) (t : ℚ) :
    (calcWith rho1 store g).map (fun r => r.implied_efficiency)
      = (calculate_implied_probability_sum store g).map (fun r => r.implied_efficiency)
  ∧ (detectWith rhoM rhoS rhoZ store g).map
        (fun r => (r.anomalies_detected, r.anomalies.map (fun a => (a.ticker, a.price, a.anomaly_type))))
      = (detect_probability_anomalies store g t).map
        (fun r => (r.anomalies_detected, r.anomalies.map (fun a => (a.ticker, a.price, a.anomaly_type)))) := by
  constructor
  · show _ = (calcWith (roundToQ 3) store g).map _
    unfold calcWith
    by_cases h : calcDf store g = []
    · rw [if_pos h, if_pos h]
    · rw [if_neg h, if_neg h]
      rfl
  · show _ = (detectWith (roundToQ 3) (roundToR 3) (roundToR 2) store g).map _
    unfold detectWith
    by_cases h : (detectDf store g).length < 3
    · rw [if_pos h, if_pos h]
    · rw [if_neg h, if_neg h]
      simp only [Option.map_some']
      rw [anomalyList_length rhoZ (roundToR 2) store g,
        anomalyList_proj rhoZ (roundToR 2) store g]

/-- Claim C5: whenever the group has any observation, the evaluator produces
a result whose as-of time is the largest observation timestamp present
across the group, whose (rounded) sum ranges exactly over the yes-prices of
the observations at that timestamp, and whose price list only contains
observations at that timestamp. -/
theorem claim5_thm (store : List Obs) (g : List String) (h : queryGroup store g ≠ []) :
    ∃ r, calculate_implied_probability_sum store g = some r
      ∧ r.timestamp ∈ (queryGroup store g).map (fun o => o.timestamp)
      ∧ (∀ o ∈ queryGroup store g, o.timestamp ≤ r.timestamp)
      ∧ r.total_probability_sum =
          roundToQ 3 ((((queryGroup store g).filter
            (fun o => decide (o.timestamp = r.timestamp))).map (fun o => o.yes_price)).sum)
      ∧ (∀ pr ∈ r.market_prices, ∃ o ∈ queryGroup store g,
          o.timestamp = r.timestamp ∧ pr = (o.ticker, o.yes_price)) := by
  have hperm := sortByTsDesc_perm (queryGroup store g)
  have hdf : calcDf store g ≠ [] := fun hc => h ((sort_eq_nil_iff _).mp hc)
  refine ⟨{ event_tickers := g
            timestamp := maxTs (calcDf store g)
            total_probability_sum := roundToQ 3 (calcTotal store g)
            implied_efficiency :=
              if 0.95 < calcTotal store g ∧ calcTotal store g < 1.05 then "Fair"
              else if 1.05 < calcTotal store g then "Expensive"
              else "Cheap"
            market_prices := (calcRows store g).map (fun o => (o.ticker, o.yes_price)) },
      ?_, ?_, ?_, ?_, ?_⟩
  · unfold calculate_implied_probability_sum calcWith
    rw [if_neg hdf]
  · dsimp only
    exact ((hperm.map (fun o => o.timestamp)).mem_iff).mp (maxTs_mem _ hdf)
  · intro o ho
    dsimp only
    exact maxTs_le _ o (hperm.mem_iff.mpr ho)
  · dsimp only
    congr 1
    unfold calcTotal calcRows
    exact List.Perm.sum_eq ((hperm.filter _).map _)
  · dsimp only
    intro pr hpr
    obtain ⟨o, ho, rfl⟩ := List.mem_map.mp hpr
    have ho2 := List.mem_filter.mp ho
    refine ⟨o, hperm.mem_iff.mp ho2.1, ?_, rfl⟩
    simpa using ho2.2

/-- The spec example store: prices 0.40, 0.35, 0.25 at one timestamp. -/
def storeFair : List Obs := [⟨"A", 2/5, 1⟩, ⟨"B", 7/20, 1⟩, ⟨"C", 1/4, 1⟩]

/-- The three-member group for storeFair. -/
def gFair : List String := ["A", "B", "C"]

/-- Witness for claim C5 on the spec's fair-priced example store. -/
theorem claim5_witness :
    queryGroup storeFair gFair ≠ [] ∧
      (calculate_implied_probability_sum storeFair gFair).isSome = true := by
  refine ⟨by decide, ?_⟩
  obtain ⟨r, hr, -, -, -, -⟩ := claim5_thm storeFair gFair (by decide)
  rw [hr]
  rfl

lemma detect_none_iff (store : List Obs) (g : List String) (t : ℚ) :
    detect_probability_anomalies store g t = none ↔
      min (queryGroup store g).length g.length < 3 := by
  show detectWith _ _ _ store g = none ↔ _
  unfold detectWith
  have hlen : (detectDf store g).length = min (queryGroup store g).length g.length := by
    unfold detectDf
    rw [List.length_take, (sortByTsDesc_perm (queryGroup store g)).length_eq]
    exact min_comm _ _
  by_cases h : (detectDf store g).length < 3
  · rw [if_pos h]
    simp [← hlen, h]
  · rw [if_neg h]
    simp [← hlen, h]

/-- Claim C3, amended: the detector returns absent exactly when its query
returns fewer than 3 rows, i.e. when the smaller of the group's total
observation count and the group size is below 3 (so a group of size 2 is
always absent); the count of instruments actually sharing the as-of
timestamp is not what is tested. -/
theorem claim3_amended (store : List Obs) (g : List String) (t : ℚ) :
    detect_probability_anomalies store g t = none ↔
      min (queryGroup store g).length g.length < 3 :=
  detect_none_iff store g t

/-- A store where only one of three group members is observed at the
latest timestamp. -/
def store3 : List Obs := [⟨"A", 1/2, 2⟩, ⟨"B", 1/2, 1⟩, ⟨"C", 1/2, 1⟩]

/-- The three-member group for store3. -/
def g3 : List String := ["A", "B", "C"]

/-- Claim C3, counterexample: only one instrument has an observation at the
as-of timestamp, yet the detector still produces a result instead of
returning absent. -/
theorem claim3_counterexample :
    (detectRows store3 g3).length = 1 ∧
      (detect_probability_anomalies store3 g3 (3/20)).isSome = true := by
  constructor
  · decide
  · show (detectWith _ _ _ store3 g3).isSome = true
    unfold detectWith
    rw [if_neg (by decide : ¬ (detectDf store3 g3).length < 3)]
    rfl

/-- Claim C2, amended: whenever the detector produces a result, it flags
exactly the as-of rows whose absolute standardized score exceeds the fixed
constant 1.5 — independently of the threshold argument, whose source
default is 0.15 — and labels flagged rows by the sign of the score. -/
theorem claim2_amended (store : List Obs) (g : List String) (t : ℚ)
    (h : ¬ (detectDf store g).length < 3) :
    ∃ r, detect_probability_anomalies store g t = some r ∧
      (∀ tk : String, (∃ a ∈ r.anomalies, a.ticker = tk) ↔
        (∃ o ∈ detectRows store g, o.ticker = tk ∧
          3/2 < |zscore (detectPrices store g) o.yes_price|)) ∧
      (∀ a ∈ r.anomalies,
        (0 < zscore (detectPrices store g) a.price → a.anomaly_type = "UNUSUALLY_HIGH") ∧
        (zscore (detectPrices store g) a.price < 0 → a.anomaly_type = "UNUSUALLY_LOW")) := by
  refine ⟨{ event_tickers := g
            mean_price := roundToQ 3 (meanPrice (detectPrices store g))
            std_dev := roundToR 3 (stdPrice (detectPrices store g))
            anomalies_detected := decide (0 < (anomalyList (roundToR 2) store g).length)
            anomalies := anomalyList (roundToR 2) store g },
      ?_, ?_, ?_⟩
  · show detectWith _ _ _ store g = some _
    unfold detectWith
    rw [if_neg h]
  · intro tk
    dsimp only
    constructor
    · rintro ⟨a, ha, rfl⟩
      unfold anomalyList at ha
      rw [List.mem_filterMap] at ha
      obtain ⟨o, ho, heq⟩ := ha
      by_cases hf : flagged (detectPrices store g) o.yes_price
      · rw [if_pos hf] at heq
        injection heq with heq
        subst heq
        exact ⟨o, ho, rfl, hf⟩
      · rw [if_neg hf] at heq
        exact Option.noConfusion heq
    · rintro ⟨o, ho, rfl, hz⟩
      refine ⟨{ ticker := o.ticker
                price := o.yes_price
                z_score := roundToR 2 (zscore (detectPrices store g) o.yes_price)
                anomaly_type := if 0 < zscore (detectPrices store g) o.yes_price
                  then "UNUSUALLY_HIGH" else "UNUSUALLY_LOW" }, ?_, rfl⟩
      unfold anomalyList
      rw [List.mem_filterMap]
      exact ⟨o, ho, by
        rw [if_pos (show flagged (detectPrices store g) o.yes_price from hz)]⟩
  · intro a ha
    dsimp only at ha
    unfold anomalyList at ha
    rw [List.mem_filterMap] at ha
    obtain ⟨o, ho, heq⟩ := ha
    by_cases hf : flagged (detectPrices store g) o.yes_price
    · rw [if_pos hf] at heq
      injection heq with heq
      subst heq
      constructor
      · intro hpos
        dsimp only
        rw [if_pos hpos]
      · intro hneg
        dsimp only
        rw [if_neg (not_lt.mpr (le_of_lt hneg))]
    · rw [if_neg hf] at heq
      exact Option.noConfusion heq

/-- A five-member store with four prices at 0 and one at 0.5, all at one
timestamp; its population standard deviation is exactly 0.2. -/
def store5 : List Obs :=
  [⟨"T1", 0, 1⟩, ⟨"T2", 0, 1⟩, ⟨"T3", 0, 1⟩, ⟨"T4", 0, 1⟩, ⟨"T5", 1/2, 1⟩]

/-- The five-member group for store5. -/
def g5 : List String := ["T1", "T2", "T3", "T4", "T5"]

lemma detectPrices_store5 : detectPrices store5 g5 = [0, 0, 0, 0, 1/2] := rfl

lemma meanPrice_store5 : meanPrice (detectPrices store5 g5) = 1/10 := by
  rw [detectPrices_store5]
  norm_num [meanPrice]

lemma varPrice_store5 : varPrice (detectPrices store5 g5) = 1/25 := by
  rw [detectPrices_store5]
  unfold varPrice
  rw [show meanPrice [0, 0, 0, 0, 1/2] = 1/10 from by norm_num [meanPrice]]
  norm_num

lemma stdPrice_store5 : stdPrice (detectPrices store5 g5) = 1/5 := by
  unfold stdPrice
  rw [varPrice_store5]
  rw [show ((1/25 : ℚ) : ℝ) = (1/5 : ℝ) ^ 2 by norm_num]
  exact Real.sqrt_sq (by norm_num)

lemma zscore_store5_high : zscore (detectPrices store5 g5) (1/2) = 400/201 := by
  unfold zscore
  rw [stdPrice_store5, meanPrice_store5]
  push_cast
  norm_num

lemma zscore_store5_low : zscore (detectPrices store5 g5) 0 = -(100/201) := by
  unfold zscore
  rw [stdPrice_store5, meanPrice_store5]
  push_cast
  norm_num

lemma flagged_store5_high : flagged (detectPrices store5 g5) (1/2) := by
  unfold flagged
  rw [zscore_store5_high]
  rw [abs_of_pos (by norm_num : (0:ℝ) < 400/201)]
  norm_num

lemma flagged_store5_low : ¬ flagged (detectPrices store5 g5) 0 := by
  unfold flagged
  rw [zscore_store5_low]
  rw [abs_of_nonpos (by norm_num : -(100/201 : ℝ) ≤ 0)]
  norm_num

/-- Claim C2, counterexample: called with threshold 3, the detector still
flags the instrument whose absolute score is below 3 (it is about 1.99,
above the hardcoded 1.5), so flagging does not follow the passed threshold. -/
theorem claim2_counterexample :
    (detect_probability_anomalies store5 g5 3).map
        (fun r => r.anomalies.map (fun a => a.ticker)) = some ["T5"] ∧
      |zscore (detectPrices store5 g5) (1/2)| < 3 := by
  constructor
  · show (detectWith _ _ _ store5 g5).map _ = _
    unfold detectWith
    rw [if_neg (by decide : ¬ (detectDf store5 g5).length < 3)]
    simp only [Option.map_some', Option.some.injEq]
    unfold anomalyList
    rw [show detectRows store5 g5 =
      [⟨"T1", 0, 1⟩, ⟨"T2", 0, 1⟩, ⟨"T3", 0, 1⟩, ⟨"T4", 0, 1⟩, ⟨"T5", 1/2, 1⟩] from rfl]
    simp only [List.filterMap_cons, List.filterMap_nil]
    rw [if_neg flagged_store5_low, if_neg flagged_store5_low, if_neg flagged_store5_low,
      if_neg flagged_store5_low,
      if_pos (show flagged (detectPrices store5 g5)
        (Obs.yes_price ⟨"T5", 1/2, 1⟩) from flagged_store5_high)]
    rfl
  · rw [zscore_store5_high]
    rw [abs_of_pos (by norm_num : (0:ℝ) < 400/201)]
    norm_num

/-- Witness for claim C2 on the five-member store, with threshold 42. -/
theorem claim2_witness :
    ¬ (detectDf store5 g5).length < 3 ∧
      (detect_probability_anomalies store5 g5 42).isSome = true := by
  refine ⟨by decide, ?_⟩
  obtain ⟨r, hr, -, -⟩ := claim2_amended store5 g5 42 (by decide)
  rw [hr]
  rfl

lemma meanPrice_const (l : List ℚ) (c : ℚ) (hne : l ≠ []) (hall : ∀ p ∈ l, p = c) :
    meanPrice l = c := by
  unfold meanPrice
  rw [List.sum_eq_card_nsmul l c hall, nsmul_eq_mul]
  have hlen : (l.length : ℚ) ≠ 0 := by
    have := List.length_pos.mpr hne
    exact_mod_cast Nat.pos_iff_ne_zero.mp this
  rw [mul_comm, mul_div_assoc, div_self hlen, mul_one]

lemma varPrice_const (l : List ℚ) (c : ℚ) (hne : l ≠ []) (hall : ∀ p ∈ l, p = c) :
    varPrice l = 0 := by
  unfold varPrice
  rw [List.sum_eq_zero]
  · simp
  · intro x hx
    obtain ⟨p, hp, rfl⟩ := List.mem_map.mp hx
    rw [hall p hp, meanPrice_const l c hne hall]
    ring

lemma detectRows_ne_nil (store : List Obs) (g : List String)
    (h : detectDf store g ≠ []) : detectRows store g ≠ [] := by
  have hmem := maxTs_mem (detectDf store g) h
  obtain ⟨o, ho, hts⟩ := List.mem_map.mp hmem
  apply List.ne_nil_of_mem (a := o)
  unfold detectRows
  rw [List.mem_filter]
  exact ⟨ho, by simp [hts]⟩

/-- Claim C8: when the detector runs on a group whose as-of prices are all
identical, the score denominator is nonzero (the epsilon guards the zero
standard deviation), every standardized score is 0, and the result reports
no anomalies with an empty anomaly list. -/
theorem claim8_thm (store : List Obs) (g : List String) (t : ℚ) (c : ℚ)
    (hlen : ¬ (detectDf store g).length < 3)
    (hall : ∀ p ∈ detectPrices store g, p = c) :
    stdPrice (detectPrices store g) + 1/1000 ≠ 0
    ∧ (∀ p ∈ detectPrices store g, zscore (detectPrices store g) p = 0)
    ∧ (detect_probability_anomalies store g t).map
        (fun r => (r.anomalies_detected, r.anomalies.map (fun a => a.ticker)))
      = some (false, []) := by
  have hdfne : detectDf store g ≠ [] := by
    intro hc
    rw [hc] at hlen
    exact hlen (by norm_num)
  have hrne : detectRows store g ≠ [] := detectRows_ne_nil store g hdfne
  have hpne : detectPrices store g ≠ [] := by
    unfold detectPrices
    simpa using hrne
  have hmean : meanPrice (detectPrices store g) = c := meanPrice_const _ c hpne hall
  have hvar : varPrice (detectPrices store g) = 0 := varPrice_const _ c hpne hall
  have hstd : stdPrice (detectPrices store g) = 0 := by
    unfold stdPrice
    rw [hvar]
    simp
  have hz : ∀ p ∈ detectPrices store g, zscore (detectPrices store g) p = 0 := by
    intro p hp
    unfold zscore
    rw [hall p hp, hmean, sub_self, zero_div]
  have hanil : anomalyList (roundToR 2) store g = [] := by
    unfold anomalyList
    rw [List.filterMap_eq_nil_iff]
    intro o ho
    rw [if_neg]
    intro hf
    have hzo : zscore (detectPrices store g) o.yes_price = 0 := by
      apply hz
      unfold detectPrices
      exact List.mem_map_of_mem _ ho
    unfold flagged at hf
    rw [hzo] at hf
    simp at hf
    exact absurd hf (by norm_num)
  refine ⟨ne_of_gt (denom_pos _), hz, ?_⟩
  show (detectWith _ _ _ store g).map _ = _
  unfold detectWith
  rw [if_neg hlen]
  simp only [Option.map_some', Option.some.injEq]
  rw [hanil]
  rfl

/-- A store whose three group members all trade at 0.5 at one timestamp. -/
def store8 : List Obs := [⟨"A", 1/2, 1⟩, ⟨"B", 1/2, 1⟩, ⟨"C", 1/2, 1⟩]

/-- The three-member group for store8. -/
def g8 : List String := ["A", "B", "C"]

/-- Witness for claim C8 on the zero-variance store. -/
theorem claim8_witness :
    (detect_probability_anomalies store8 g8 (3/20)).map
        (fun r => (r.anomalies_detected, r.anomalies.map (fun a => a.ticker)))
      = some (false, []) := by
  refine (claim8_thm store8 g8 (3/20) (1/2) (by decide) ?_).2.2
  rw [show detectPrices store8 g8 = [1/2, 1/2, 1/2] from rfl]
  intro p hp
  simp only [List.mem_cons, List.not_mem_nil, or_false] at hp
  rcases hp with rfl | rfl | rfl <;> rfl

/-- A store containing an observation for the empty instrument id. -/
def store9 : List Obs := [⟨"", 1/2, 1⟩, ⟨"A", 1/2, 1⟩, ⟨"B", 1/2, 1⟩]

/-- A group containing the empty instrument id. -/
def g9 : List String := ["", "A", "B"]

/-- Claim C9, counterexample: a group containing an empty instrument id and
a negative threshold are both accepted — both operations proceed to query
and compute and return results instead of failing with a validation error. -/
theorem claim9_counterexample :
    (calculate_implied_probability_sum store9 g9).isSome = true ∧
      (detect_probability_anomalies store9 g9 (-1)).isSome = true := by
  constructor
  · show (calcWith _ store9 g9).isSome = true
    unfold calcWith
    rw [if_neg (by decide : ¬ calcDf store9 g9 = [])]
    rfl
  · show (detectWith _ _ _ store9 g9).isSome = true
    unfold detectWith
    rw [if_neg (by decide : ¬ (detectDf store9 g9).length < 3)]
    rfl

/-- Claim C9, amended: no input validation is performed — for a group with
an empty instrument id or a negative threshold the operations behave exactly
as on any input, returning absent solely according to data availability. -/
theorem claim9_amended (store : List Obs) (g : List String) (t : ℚ)
    (h : "" ∈ g ∨ t < 0) :
    (calculate_implied_probability_sum store g = none ↔ queryGroup store g = [])
    ∧ (detect_probability_anomalies store g t = none ↔
        min (queryGroup store g).length g.length < 3) :=
  ⟨calcWith_none_iff (roundToQ 3) store g, detect_none_iff store g t⟩

/-- Witness for claim C9 with an empty id in the group and threshold -1. -/
theorem claim9_witness :
    ("" ∈ g9 ∨ (-1 : ℚ) < 0) ∧
      (calculate_implied_probability_sum store9 g9 = none ↔ queryGroup store9 g9 = []) :=
  ⟨Or.inl (by decide), (claim9_amended store9 g9 (-1) (Or.inl (by decide))).1⟩

/-- The keys of a grouping, in order. -/
def keysOf (gs : List (String × List String)) : List String := gs.map Prod.fst

/-- The member list stored under a key (empty when the key is absent). -/
def membersOf : List (String × List String) → String → List String
  | [], _ => []
  | (k, ms) :: rest, key => if k = key then ms else membersOf rest key

lemma membersOf_insertGroup (gs : List (String × List String)) (key tk k' : String) :
    membersOf (insertGroup gs key tk) k' =
      if k' = key then membersOf gs k' ++ [tk] else membersOf gs k' := by
  induction gs with
  | nil =>
    by_cases h : k' = key
    · subst h
      simp [insertGroup, membersOf]
    · simp [insertGroup, membersOf, h, Ne.symm h]
  | cons hd rest ih =>
    obtain ⟨k, ms⟩ := hd
    unfold insertGroup
    by_cases hk : k = key
    · subst hk
      by_cases h2 : k = k'
      · subst h2
        simp [membersOf]
      · simp [membersOf, h2, Ne.symm h2]
    · rw [if_neg hk]
      by_cases h2 : k = k'
      · subst h2
        simp [membersOf, hk]
      · simp only [membersOf, if_neg h2]
        exact ih

lemma keysOf_insertGroup (gs : List (String × List String)) (key tk : String) :
    keysOf (insertGroup gs key tk) =
      if key ∈ keysOf gs then keysOf gs else keysOf gs ++ [key] := by
  induction gs with
  | nil => simp [insertGroup, keysOf]
  | cons hd rest ih =>
    obtain ⟨k, ms⟩ := hd
    unfold insertGroup
    by_cases hk : k = key
    · subst hk
      simp [keysOf]
    · rw [if_neg hk]
      show k :: keysOf (insertGroup rest key tk) = _
      rw [ih]
      by_cases hmem : key ∈ keysOf rest
      · rw [if_pos hmem,
          if_pos (show key ∈ keysOf ((k, ms) :: rest) from List.mem_cons_of_mem _ hmem)]
        rfl
      · have hni : key ∉ keysOf ((k, ms) :: rest) := by
          intro hcon
          rcases List.mem_cons.mp hcon with h1 | h1
          · exact hk h1.symm
          · exact hmem h1
        rw [if_neg hmem, if_neg hni]
        rfl

lemma keysOf_insertGroup_nodup (gs : List (String × List String)) (key tk : String)
    (h : (keysOf gs).Nodup) : (keysOf (insertGroup gs key tk)).Nodup := by
  rw [keysOf_insertGroup]
  by_cases hmem : key ∈ keysOf gs
  · rw [if_pos hmem]
    exact h
  · rw [if_neg hmem]
    simp [List.nodup_append, h, hmem]

lemma membersOf_foldl (ids : List String) (acc : List (String × List String)) (k : String) :
    membersOf (ids.foldl (fun gs tk => insertGroup gs (base_ticker tk) tk) acc) k
      = membersOf acc k ++ ids.filter (fun tk => decide (base_ticker tk = k)) := by
  induction ids generalizing acc with
  | nil => simp
  | cons tk ids ih =>
    rw [List.foldl_cons, ih, membersOf_insertGroup, List.filter_cons]
    by_cases h : k = base_ticker tk
    · rw [if_pos h, if_pos (by simp [h])]
      simp
    · rw [if_neg h,
        if_neg (by simp only [decide_eq_true_eq]; exact fun hh => h hh.symm)]

lemma keysOf_foldl_nodup (ids : List String) (acc : List (String × List String))
    (h : (keysOf acc).Nodup) :
    (keysOf (ids.foldl (fun gs tk => insertGroup gs (base_ticker tk) tk) acc)).Nodup := by
  induction ids generalizing acc with
  | nil => simpa using h
  | cons tk ids ih =>
    rw [List.foldl_cons]
    exact ih _ (keysOf_insertGroup_nodup acc (base_ticker tk) tk h)

lemma membersOf_eq_of_mem (gs : List (String × List String))
    (h : (keysOf gs).Nodup) (p : String × List String) (hp : p ∈ gs) :
    membersOf gs p.1 = p.2 := by
  induction gs with
  | nil => cases hp
  | cons hd rest ih =>
    obtain ⟨k, ms⟩ := hd
    rcases List.mem_cons.mp hp with rfl | hmem
    · simp [membersOf]
    · unfold membersOf
      rw [keysOf, List.map_cons, List.nodup_cons] at h
      by_cases hk : k = p.1
      · exfalso
        have : p.1 ∈ keysOf rest := List.mem_map_of_mem Prod.fst hmem
        exact h.1 (hk ▸ this)
      · rw [if_neg hk]
        exact ih h.2 hmem

lemma mem_of_membersOf_ne_nil (gs : List (String × List String)) (k : String)
    (h : membersOf gs k ≠ []) : (k, membersOf gs k) ∈ gs := by
  induction gs with
  | nil => exact absurd rfl h
  | cons hd rest ih =>
    obtain ⟨k0, ms⟩ := hd
    by_cases hk : k0 = k
    · subst hk
      show (k0, membersOf ((k0, ms) :: rest) k0) ∈ _
      rw [show membersOf ((k0, ms) :: rest) k0 = ms from by simp [membersOf]]
      exact List.mem_cons_self _ _
    · have hrw : membersOf ((k0, ms) :: rest) k = membersOf rest k := by
        simp [membersOf, hk]
      rw [hrw] at h ⊢
      exact List.mem_cons_of_mem _ (ih h)

lemma lastSplit_eq_none (cs : List Char) : lastSplit cs = none ↔ '-' ∉ cs := by
  induction cs with
  | nil => simp [lastSplit]
  | cons c rest ih =>
    unfold lastSplit
    cases hres : lastSplit rest with
    | some pr =>
      have hin : '-' ∈ rest := by
        by_contra hc
        rw [ih.mpr hc] at hres
        cases hres
      simp [hin]
    | none =>
      by_cases hc : c = '-'
      · subst hc
        simp
      · simp [hc, Ne.symm hc, ih.mp hres]

lemma base_ticker_no_dash (t : String) (h : '-' ∉ t.toList) : base_ticker t = t := by
  unfold base_ticker
  rw [(lastSplit_eq_none t.toList).mpr h]

lemma group_member_entry (ids : List String) (tk : String) (htk : tk ∈ ids) :
    (base_ticker tk, membersOf (group_related_markets ids) (base_ticker tk))
        ∈ group_related_markets ids
      ∧ tk ∈ membersOf (group_related_markets ids) (base_ticker tk) := by
  have hin : tk ∈ membersOf (group_related_markets ids) (base_ticker tk) := by
    show tk ∈ membersOf (List.foldl (fun gs tk => insertGroup gs (base_ticker tk) tk) [] ids) _
    rw [membersOf_foldl ids [] (base_ticker tk)]
    show tk ∈ [] ++ _
    rw [List.nil_append, List.mem_filter]
    exact ⟨htk, by simp⟩
  exact ⟨mem_of_membersOf_ne_nil _ _ (List.ne_nil_of_mem hin), hin⟩

/-- Claim C4, amended: the grouping is a deterministic partition — every
input id lies in exactly one group, group keys are pairwise distinct, each
group lists exactly the input ids whose base (text before the last dash)
equals its key, in input order — and an id with no dash is keyed by itself,
though its group need not be a singleton when another id shares that base. -/
theorem claim4_amended (ids : List String) :
    (∀ tk ∈ ids, ∃! p : String × List String,
        p ∈ group_related_markets ids ∧ tk ∈ p.2)
  ∧ ((group_related_markets ids).map Prod.fst).Nodup
  ∧ (∀ p ∈ group_related_markets ids,
      p.2 = ids.filter (fun tk => decide (base_ticker tk = p.1)))
  ∧ (∀ tk ∈ ids, '-' ∉ tk.toList →
      ∃ p ∈ group_related_markets ids, p.1 = tk ∧ tk ∈ p.2) := by
  have hnodup : (keysOf (group_related_markets ids)).Nodup :=
    keysOf_foldl_nodup ids [] (by simp [keysOf])
  have hchar : ∀ p ∈ group_related_markets ids,
      p.2 = ids.filter (fun tk => decide (base_ticker tk = p.1)) := by
    intro p hp
    have h1 := membersOf_eq_of_mem _ hnodup p hp
    have h2 : membersOf (group_related_markets ids) p.1
        = membersOf [] p.1 ++ ids.filter (fun tk => decide (base_ticker tk = p.1)) :=
      membersOf_foldl ids [] p.1
    rw [h1] at h2
    simpa using h2
  refine ⟨?_, hnodup, hchar, ?_⟩
  · intro tk htk
    obtain ⟨hpmem, hin⟩ := group_member_entry ids tk htk
    refine ⟨_, ⟨hpmem, hin⟩, ?_⟩
    rintro q ⟨hq, htkq⟩
    have h3 : tk ∈ ids.filter (fun tk => decide (base_ticker tk = q.1)) := by
      rw [← hchar q hq]
      exact htkq
    rw [List.mem_filter] at h3
    have hq1 : base_ticker tk = q.1 := of_decide_eq_true h3.2
    exact List.inj_on_of_nodup_map hnodup hq hpmem hq1.symm
  · intro tk htk hdash
    obtain ⟨hpmem, hin⟩ := group_member_entry ids tk htk
    exact ⟨_, hpmem, base_ticker_no_dash tk hdash, hin⟩

/-- Claim C4, counterexample: in the input with both a dashed id based at
"A" and the bare id "A", the dashless id "A" does not form a singleton
group — it is appended to the existing group keyed "A". -/
theorem claim4_counterexample :
    group_related_markets ["A-B", "A"] = [("A", ["A-B", "A"])] ∧
      '-' ∉ ("A" : String).toList := by
  constructor
  · rfl
  · decide

/-- Witness for claim C4: the filter characterisation of a concrete group. -/
theorem claim4_witness :
    ("X", ["X-1", "X-2"]) ∈ group_related_markets ["X-1", "X-2", "Y"] ∧
      (["X-1", "X-2"] : List String) =
        ["X-1", "X-2", "Y"].filter (fun tk => decide (base_ticker tk = "X")) := by
  have hp : ("X", ["X-1", "X-2"]) ∈ group_related_markets ["X-1", "X-2", "Y"] := by decide
  exact ⟨hp, (claim4_amended ["X-1", "X-2", "Y"]).2.2.1 ("X", ["X-1", "X-2"]) hp⟩
